import Mathlib

/-!
Verification of the Neotron BMC firmware (pico and nucleo variants) against
its natural-language specification.  The definitions below are shallow
embeddings of the Rust code in `src/neotron-bmc-pico/src/main.rs` and
`src/neotron-bmc-nucleo/src/main.rs`; machine integers are modelled as `Nat`
with explicit wrap-around where the source type could overflow.
-/

/-! ## PS/2 line protocol decoder -/

/-- Number of one bits among the low 8 bits of `n`; models `u8::count_ones`
on a value already masked to 8 bits (as `data` in `check_word` always is). -/
def count_ones_8 (n : Nat) : Nat :=
  (n &&& 1) + ((n >>> 1) &&& 1) + ((n >>> 2) &&& 1) + ((n >>> 3) &&& 1) +
  ((n >>> 4) &&& 1) + ((n >>> 5) &&& 1) + ((n >>> 6) &&& 1) + ((n >>> 7) &&& 1)

/-- `Ps2Decoder::check_word` from `src/neotron-bmc-pico/src/main.rs` lines
742-764.  The nucleo variant (lines 508-530) is identical up to the spelling
of the literals. -/
def check_word (word : Nat) : Option Nat :=
  let start_bit : Bool := (word &&& 0x001) != 0
  let parity_bit : Bool := (word &&& 0x200) != 0
  let stop_bit : Bool := (word &&& 0x400) != 0
  let data : Nat := (word >>> 1) &&& 0xFF
  if start_bit then none
  else if !stop_bit then none
  else
    let need_parity : Bool := count_ones_8 data % 2 == 0
    if need_parity != parity_bit then none
    else some data

/-- Spec-side framing condition for claim C1, written from the claim's words:
the start bit (bit 0) is 0, the stop bit (bit 10) is 1, and the total number
of one bits across the data byte (bits 1..8) and the parity bit (bit 9) is
odd. -/
def spec_frame_ok (w : Nat) : Bool :=
  !w.testBit 0 && w.testBit 10 &&
    ((((List.range 9).map (fun i => if w.testBit (i + 1) then 1 else 0)).sum) % 2 == 1)

/-- Spec-side data byte for claim C1: word bits 1..8, LSB first. -/
def spec_data_byte (w : Nat) : Nat :=
  ((List.range 8).map (fun j => if w.testBit (j + 1) then 2 ^ j else 0)).sum

/-- Balanced exhaustive check: `all_pow2 f lo k` is true when `f` holds on
every value in `[lo, lo + 2 ^ k)`.  The recursion is structural on `k`, so the
evaluation depth of a check over a machine-word range stays logarithmic. -/
def all_pow2 (f : Nat → Bool) : Nat → Nat → Bool
  | lo, 0 => f lo
  | lo, k + 1 => all_pow2 f lo k && all_pow2 f (lo + 2 ^ k) k

theorem all_pow2_spec (f : Nat → Bool) :
    ∀ (k lo : Nat), all_pow2 f lo k = true →
      ∀ j, lo ≤ j → j < lo + 2 ^ k → f j = true := by
  intro k
  induction k with
  | zero =>
    intro lo h j h1 h2
    have : j = lo := by omega
    exact this ▸ h
  | succ k ih =>
    intro lo h j h1 h2
    unfold all_pow2 at h
    rw [Bool.and_eq_true] at h
    have hsplit : 2 ^ (k + 1) = 2 ^ k + 2 ^ k := by
      rw [pow_succ]; omega
    by_cases hj : j < lo + 2 ^ k
    · exact ih lo h.1 j h1 hj
    · exact ih (lo + 2 ^ k) h.2 j (by omega) (by omega)

/-- C1: for every 11-bit PS/2 word, `check_word` returns the 8 data bits
(word bits 1..8, LSB first) exactly when the start bit (bit 0) is 0, the stop
bit (bit 10) is 1 and the total number of one bits across the data byte and
the parity bit (bit 9) is odd; for every other 11-bit word it returns
`none`. -/
theorem check_word_spec :
    ∀ w : Fin 2048,
      check_word w.val = if spec_frame_ok w.val then some (spec_data_byte w.val) else none := by
  have h : all_pow2
      (fun w => check_word w ==
        if spec_frame_ok w then some (spec_data_byte w) else none) 0 11 = true := by rfl
  intro w
  have hw := all_pow2_spec _ 11 0 h w.val (Nat.zero_le _) (by omega)
  exact eq_of_beq hw

/-- C10: `check_word` depends only on the low 11 bits of its 16-bit argument:
for every u16 word `w`, `check_word w = check_word (w &&& 0x7FF)`. -/
theorem check_word_low_bits :
    ∀ w : Fin 65536, check_word w.val = check_word (w.val &&& 0x7FF) := by
  intro w
  have e01 : (0x7FF &&& 0x001 : Nat) = 0x001 := by decide
  have e02 : (0x7FF &&& 0x200 : Nat) = 0x200 := by decide
  have e04 : (0x7FF &&& 0x400 : Nat) = 0x400 := by decide
  have h1 : (w.val &&& 0x7FF) &&& 0x001 = w.val &&& 0x001 := by
    rw [Nat.land_assoc, e01]
  have h2 : (w.val &&& 0x7FF) &&& 0x200 = w.val &&& 0x200 := by
    rw [Nat.land_assoc, e02]
  have h3 : (w.val &&& 0x7FF) &&& 0x400 = w.val &&& 0x400 := by
    rw [Nat.land_assoc, e04]
  have h4 : ((w.val &&& 0x7FF) >>> 1) &&& 0xFF = (w.val >>> 1) &&& 0xFF := by
    apply Nat.eq_of_testBit_eq
    intro i
    have e1 : (0x7FF : Nat) = 2 ^ 11 - 1 := by norm_num
    have e2 : (0xFF : Nat) = 2 ^ 8 - 1 := by norm_num
    rw [e1, e2]
    simp only [Nat.testBit_and, Nat.testBit_shiftRight, Nat.testBit_two_pow_sub_one]
    by_cases hi : i < 8
    · have : 1 + i < 11 := by omega
      simp [hi, this]
    · simp [hi]
  simp only [check_word]
  rw [h1, h2, h3, h4]

/-- State of `Ps2Decoder` (both variants): the current bit position mask and
the accumulator for the word being collected. -/
structure Ps2Decoder where
  bit_mask : Nat
  collector : Nat
  deriving DecidableEq, Repr

/-- `Ps2Decoder::new` (both variants): mask at the first bit, accumulator
zero. -/
def Ps2Decoder.new : Ps2Decoder := ⟨1, 0⟩

/-- `Ps2Decoder::reset` in the pico variant (main.rs lines 717-720): back to
`bit_mask = 1`, `collector = 0`. -/
def Ps2Decoder.reset (_d : Ps2Decoder) : Ps2Decoder := ⟨1, 0⟩

/-- `Ps2Decoder::add_bit` in the pico variant (main.rs lines 723-736).  The
fields are u16, so the left shift wraps at 2^16. -/
def Ps2Decoder.add_bit (d : Ps2Decoder) (bit : Bool) : Ps2Decoder × Option Nat :=
  let collector := if bit then d.collector ||| d.bit_mask else d.collector
  if d.bit_mask == 0x400 then
    (Ps2Decoder.reset d, some collector)
  else
    (⟨(d.bit_mask <<< 1) % 65536, collector⟩, none)

/-- `Ps2Decoder::reset` in the nucleo variant (main.rs lines 488-491): note
that it sets `bit_mask` to 0, not back to the initial 1. -/
def Ps2Decoder.nucleo_reset (_d : Ps2Decoder) : Ps2Decoder := ⟨0, 0⟩

/-- `Ps2Decoder::add_bit` in the nucleo variant (main.rs lines 493-505): the
shift happens before the mask comparison, and reset sets the mask to 0. -/
def Ps2Decoder.nucleo_add_bit (d : Ps2Decoder) (bit : Bool) : Ps2Decoder × Option Nat :=
  let collector := if bit then d.collector ||| d.bit_mask else d.collector
  let bit_mask := (d.bit_mask <<< 1) % 65536
  if bit_mask == 0x800 then
    (Ps2Decoder.nucleo_reset d, some collector)
  else
    (⟨bit_mask, collector⟩, none)

/-- Feed a list of bits through a decoder step function, returning the final
decoder state and the completed words in order of completion. -/
def ps2_feed (step : Ps2Decoder → Bool → Ps2Decoder × Option Nat) :
    Ps2Decoder → List Bool → Ps2Decoder × List Nat
  | d, [] => (d, [])
  | d, b :: bs =>
    let r := step d b
    let rest := ps2_feed step r.1 bs
    (rest.1, match r.2 with | some word => word :: rest.2 | none => rest.2)

/-- C3 (code evaluation at the failing input): on 22 consecutive one bits
starting from the initial state, the pico decoder hands off the raw word
`0x7FF` after the 11th bit, returns to the initial state, and decodes the
next 11 bits into a second word exactly as the first; the nucleo decoder
hands off the first word but its state after the 11th bit is
`bit_mask = 0, collector = 0`, which is not the initial state, and the next
11 bits produce no further word. -/
theorem add_bit_reset_nucleo_bug :
    ps2_feed Ps2Decoder.add_bit Ps2Decoder.new (List.replicate 22 true) =
      (Ps2Decoder.new, [0x7FF, 0x7FF]) ∧
    (ps2_feed Ps2Decoder.nucleo_add_bit Ps2Decoder.new (List.replicate 11 true)).1 =
      ⟨0, 0⟩ ∧
    (⟨0, 0⟩ : Ps2Decoder) ≠ Ps2Decoder.new ∧
    (ps2_feed Ps2Decoder.nucleo_add_bit Ps2Decoder.new (List.replicate 22 true)).2 =
      [0x7FF] := by
  refine ⟨by decide, by decide, by decide, by decide⟩

/-! ## Power sequencer FSM (button_poll / exit_reset / led_power_blink) -/

/-- `LED_PERIOD_MS` from the source: blink half-period in milliseconds. -/
def LED_PERIOD_MS : Nat := 1000

/-- `RESET_DURATION_MS` from the pico source: reset pulse length in
milliseconds. -/
def RESET_DURATION_MS : Nat := 250

/-- `DcPowerState` from the source. -/
inductive DcPowerState where
  | Starting
  | On
  | Off
  deriving DecidableEq, Fintype, Repr

/-- `debouncr::Edge`, the edge event returned by a debouncer update. -/
inductive Edge where
  | Rising
  | Falling
  deriving DecidableEq, Fintype, Repr

/-- The shared state touched by the power sequencer tasks: the power state
and the GPIO output levels, plus the blink task's local `led_state` and a
ghost flag `reset_pulse_pending` recording that an `exit_reset` invocation
has been scheduled and has not fired yet. -/
structure SysState where
  power : DcPowerState
  led_power : Bool
  pin_dc_on : Bool
  pin_sys_reset : Bool
  reset_pulse_pending : Bool
  led_state : Bool
  deriving DecidableEq, Fintype, Repr

/-- The state built by `init`: power off, all three outputs low, no pulse
pending, blink state false. -/
def SysState.init : SysState := ⟨DcPowerState.Off, false, false, false, false, false⟩

/-- The power-button dispatch `match` of `button_poll` (pico main.rs lines
479-513; the nucleo arms, lines 429-466, are identical).  Returns the updated
state and whether `led_power_blink` was re-spawned. -/
def power_fsm (pwr_long_edge pwr_short_edge : Option Edge) (s : SysState) :
    SysState × Bool :=
  match pwr_long_edge, pwr_short_edge, s.power with
  | none, some Edge.Rising, DcPowerState.Off =>
    ({ s with power := DcPowerState.Starting, led_power := true,
              pin_dc_on := true, pin_sys_reset := true }, false)
  | none, some Edge.Falling, DcPowerState.Starting =>
    ({ s with power := DcPowerState.On }, false)
  | some Edge.Rising, none, DcPowerState.On =>
    ({ s with power := DcPowerState.Off, led_power := false,
              pin_sys_reset := false, pin_dc_on := false }, true)
  | _, _, _ => (s, false)

/-- Spec-side transition table for claim C4, written from the claim's words:
exactly three transitions, every other combination of (long edge, short edge,
state) leaves the state and all outputs unchanged and spawns nothing. -/
def spec_power_table (lng sht : Option Edge) (s : SysState) : SysState × Bool :=
  if lng = none ∧ sht = some Edge.Rising ∧ s.power = DcPowerState.Off then
    ({ s with power := DcPowerState.Starting, led_power := true,
              pin_dc_on := true, pin_sys_reset := true }, false)
  else if lng = none ∧ sht = some Edge.Falling ∧ s.power = DcPowerState.Starting then
    ({ s with power := DcPowerState.On }, false)
  else if lng = some Edge.Rising ∧ sht = none ∧ s.power = DcPowerState.On then
    ({ s with power := DcPowerState.Off, led_power := false,
              pin_sys_reset := false, pin_dc_on := false }, true)
  else (s, false)

/-- The reset-button handling at the end of `button_poll` in the pico variant
(main.rs lines 516-524): on a rising edge, and only while powered on, pull
the reset line low and schedule `exit_reset` after `RESET_DURATION_MS`
(a duplicate schedule is ignored, so the pending flag simply stays set).
Returns the updated state and the requested delay, if any. -/
def reset_button_check (rst_long_edge : Option Edge) (s : SysState) :
    SysState × Option Nat :=
  match rst_long_edge with
  | some Edge.Rising =>
    if s.power = DcPowerState.On then
      ({ s with pin_sys_reset := false, reset_pulse_pending := true },
       some RESET_DURATION_MS)
    else (s, none)
  | _ => (s, none)

/-- `exit_reset` from the pico variant (main.rs lines 531-537): return the
reset line high, but only if still powered on. -/
def exit_reset (s : SysState) : SysState :=
  if s.power = DcPowerState.On then { s with pin_sys_reset := true } else s

/-- One `button_poll` invocation (pico): the power-button dispatch followed by
the reset-button check, which reads the state already updated by the
dispatch.  Returns (state, blink re-spawned, exit_reset delay). -/
def button_poll (pwr_long pwr_short rst_long : Option Edge) (s : SysState) :
    SysState × Bool × Option Nat :=
  let r1 := power_fsm pwr_long pwr_short s
  let r2 := reset_button_check rst_long r1.1
  (r2.1, r1.2, r2.2)

/-- `led_power_blink` (pico main.rs lines 431-442; nucleo lines 396-410):
given the power state, the task-local `led_state` and the LED pin level,
returns the new pin level, the new `led_state` and the re-spawn delay, if
any. -/
def led_power_blink (power : DcPowerState) (led_state led_pin : Bool) :
    Bool × Bool × Option Nat :=
  if power = DcPowerState.Off then
    if led_state then (false, false, some LED_PERIOD_MS)
    else (true, true, some LED_PERIOD_MS)
  else (led_pin, led_state, none)

/-- The reset-button handling of `button_poll` in the nucleo variant
(main.rs lines 468-474): on a *falling* long-confirm edge, and regardless of
the power state, write the reset line low then immediately high again; no
delayed task exists in this variant.  Returns the sequence of writes to
`pin_sys_reset` and the scheduled delay (always none). -/
def nucleo_reset_button_check (rst_long_edge : Option Edge) :
    List Bool × Option Nat :=
  match rst_long_edge with
  | some Edge.Falling => ([false, true], none)
  | _ => ([], none)

/-- An event the power sequencer can process: a `button_poll` invocation with
the three debounced edge results, the firing of a scheduled `exit_reset`, or
a `led_power_blink` tick. -/
inductive SysOp where
  | poll (pwr_long pwr_short rst_long : Option Edge)
  | fire_exit_reset
  | blink_tick
  deriving DecidableEq, Fintype, Repr

/-- One scheduler step: `exit_reset` can only fire while a pulse is pending
(it was spawned once) and firing consumes the schedule. -/
def sys_step (s : SysState) : SysOp → SysState
  | SysOp.poll l sh r => (button_poll l sh r s).1
  | SysOp.fire_exit_reset =>
    if s.reset_pulse_pending then { exit_reset s with reset_pulse_pending := false } else s
  | SysOp.blink_tick =>
    let r := led_power_blink s.power s.led_state s.led_power
    { s with led_power := r.1, led_state := r.2.1 }

/-- Run the power sequencer from the state built by `init`. -/
def run_sys (ops : List SysOp) : SysState := ops.foldl sys_step SysState.init

/-- The pin invariant of claim C7 as amended: power off implies DC-enable and
reset both low; power on implies DC-enable high, and reset high unless a
reset pulse is pending. -/
def power_pins_inv (s : SysState) : Bool :=
  (s.power != DcPowerState.Off || (!s.pin_dc_on && !s.pin_sys_reset)) &&
  (s.power != DcPowerState.On ||
    (s.pin_dc_on && (s.reset_pulse_pending || s.pin_sys_reset)))

/-- Strengthened inductive invariant: additionally, in `Starting` both
DC-enable and reset are high. -/
def power_pins_inv_full (s : SysState) : Bool :=
  power_pins_inv s &&
  (s.power != DcPowerState.Starting || (s.pin_dc_on && s.pin_sys_reset))

set_option maxRecDepth 100000 in
theorem sys_step_preserves_inv :
    ∀ (s : SysState) (op : SysOp),
      power_pins_inv_full s = true → power_pins_inv_full (sys_step s op) = true := by
  decide

theorem run_sys_inv_aux :
    ∀ (ops : List SysOp) (s : SysState),
      power_pins_inv_full s = true →
      power_pins_inv_full (ops.foldl sys_step s) = true := by
  intro ops
  induction ops with
  | nil => intro s h; exact h
  | cons op rest ih =>
    intro s h
    exact ih (sys_step s op) (sys_step_preserves_inv s op h)

set_option maxRecDepth 100000 in
/-- C4: the power-button dispatch of `button_poll` performs exactly the three
listed transitions — Off + short-confirm rising edge with no long edge goes
to Starting (LED on, DC-enable asserted, reset released); Starting +
short-confirm falling edge with no long edge goes to On (no side effects);
On + long-confirm rising edge with no short edge goes to Off (LED off, reset
asserted low, DC-enable de-asserted, blink task re-armed) — and for every
other combination of (long edge, short edge, state) the state and all
outputs are unchanged and nothing is spawned. -/
theorem power_fsm_matches_spec_table :
    ∀ (lng sht : Option Edge) (s : SysState),
      power_fsm lng sht s = spec_power_table lng sht s := by
  decide

set_option maxRecDepth 100000 in
/-- C5 counterexample: in the nucleo variant a reset-button long-confirm
rising edge — even while powered on — neither asserts the reset line low nor
schedules a delayed release; instead a *falling* edge triggers an immediate
low-then-high pulse regardless of the power state. -/
theorem reset_pulse_nucleo_counterexample :
    nucleo_reset_button_check (some Edge.Rising) = ([], none) ∧
    false ∉ (nucleo_reset_button_check (some Edge.Rising)).1 ∧
    nucleo_reset_button_check (some Edge.Falling) = ([false, true], none) := by
  decide

set_option maxRecDepth 100000 in
/-- C5 as amended: in the pico variant, a reset-button long-confirm rising
edge asserts the reset line low and schedules a release after
`RESET_DURATION_MS` = 250ms exactly when the power state is On, and does
nothing in every other case; the delayed `exit_reset` sets the line high only
if the state is still On when it fires, and leaves the whole state unchanged
otherwise.  In the nucleo variant the handling instead triggers on the
falling edge, ignores the power state, writes the line low then immediately
high, and schedules nothing. -/
theorem reset_pulse_amended :
    (∀ (r : Option Edge) (s : SysState),
      reset_button_check r s =
        if r = some Edge.Rising ∧ s.power = DcPowerState.On then
          ({ s with pin_sys_reset := false, reset_pulse_pending := true },
           some RESET_DURATION_MS)
        else (s, none)) ∧
    RESET_DURATION_MS = 250 ∧
    (∀ s : SysState,
      (exit_reset s).pin_sys_reset =
        (if s.power = DcPowerState.On then true else s.pin_sys_reset)) ∧
    (∀ s : SysState, s.power ≠ DcPowerState.On → exit_reset s = s) ∧
    nucleo_reset_button_check (some Edge.Rising) = ([], none) ∧
    nucleo_reset_button_check (some Edge.Falling) = ([false, true], none) ∧
    nucleo_reset_button_check none = ([], none) := by
  decide

set_option maxRecDepth 100000 in
/-- Witness for `reset_pulse_amended`: its hypothesis-bearing conjunct,
applied at a concrete state that is not powered on. -/
theorem reset_pulse_amended_witness :
    SysState.init.power ≠ DcPowerState.On ∧ exit_reset SysState.init = SysState.init := by
  refine ⟨by decide, ?_⟩
  exact reset_pulse_amended.2.2.2.1 SysState.init (by decide)

set_option maxRecDepth 100000 in
/-- C7 counterexample: the state reached by powering on (short press and
release) and then giving the reset button a long-confirm rising edge is a
reachable state whose power state is On while the system reset line is held
low, contradicting the claim that On implies the reset line is high. -/
theorem power_inv_counterexample :
    (run_sys [SysOp.poll none (some Edge.Rising) none,
              SysOp.poll none (some Edge.Falling) none,
              SysOp.poll none none (some Edge.Rising)]).power = DcPowerState.On ∧
    (run_sys [SysOp.poll none (some Edge.Rising) none,
              SysOp.poll none (some Edge.Falling) none,
              SysOp.poll none none (some Edge.Rising)]).pin_sys_reset = false := by
  decide

/-- C7 as amended: in every reachable state of the power sequencer, power Off
implies DC-enable low and reset asserted low, and power On implies DC-enable
high and — unless a reset-button pulse is pending — the reset line high. -/
theorem power_state_pin_invariant :
    ∀ ops : List SysOp, power_pins_inv (run_sys ops) = true := by
  intro ops
  have h := run_sys_inv_aux ops SysState.init (by decide)
  unfold power_pins_inv_full at h
  rw [Bool.and_eq_true] at h
  exact h.1

set_option maxRecDepth 100000 in
/-- C8: while the power state is Off, `led_power_blink` toggles the power LED
and re-schedules itself after `LED_PERIOD_MS` = 1000ms; in any other power
state it changes nothing and does not re-schedule itself; and the On-to-Off
transition of the power-button dispatch re-arms the blink task. -/
theorem led_blink_spec :
    (∀ (p : DcPowerState) (ls lp : Bool),
      led_power_blink p ls lp =
        if p = DcPowerState.Off then (!ls, !ls, some LED_PERIOD_MS)
        else (lp, ls, none)) ∧
    LED_PERIOD_MS = 1000 ∧
    (∀ s : SysState,
      (power_fsm (some Edge.Rising) none s).2 = (s.power == DcPowerState.On)) := by
  decide

/-! ## SPI virtual register server (pico variant only) -/

/-- The software-visible state of `SpiPeripheral` (pico main.rs lines
540-544) together with the hardware transmit queue.  `count` and
`reply_byte` are the struct fields from the source; `count` is a u8 and the
source increments it with wrapping (release) semantics.  `tx_fifo` is the
STM32 SPI transmit FIFO written by `raw_write`.  Modelled from the spec: the
bus is full duplex, each exchange shifts out the byte loaded ahead of it (or
nothing defined, if no byte was loaded), and the transmit FIFO is empty while
the device is deselected. -/
structure SpiPeripheral where
  count : Nat
  reply_byte : Option Nat
  tx_fifo : List Nat
  deriving DecidableEq, Repr

/-- `SpiPeripheral::enable` (pico main.rs lines 648-656): reset the byte
counter to 0, clear any pending reply, and preload the filler byte 0xFF. -/
def SpiPeripheral.enable (_s : SpiPeripheral) : SpiPeripheral :=
  ⟨0, none, [0xFF]⟩

/-- `SpiPeripheral::reply` (pico main.rs lines 702-704). -/
def SpiPeripheral.reply (s : SpiPeripheral) (value : Nat) : SpiPeripheral :=
  { s with reply_byte := some value }

/-- `SpiPeripheral::read` (pico main.rs lines 682-700), given the byte in the
receive FIFO, if any: pop the received byte; if a reply byte is pending,
write it and then the filler 0xFF to the transmit FIFO; bump the (wrapping
u8) byte counter; return the received byte as a command exactly when the
counter has just reached 2. -/
def SpiPeripheral.read (s : SpiPeripheral) (rx : Option Nat) :
    SpiPeripheral × Option Nat :=
  match rx with
  | none => (s, none)
  | some cmd =>
    let s1 :=
      match s.reply_byte with
      | some x => { s with tx_fifo := s.tx_fifo ++ [x, 0xFF], reply_byte := none }
      | none => s
    let s2 := { s1 with count := (s1.count + 1) % 256 }
    if s2.count = 2 then (s2, some cmd) else (s2, none)

/-- The body of the `spi1_interrupt` handler (pico main.rs lines 403-424) for
one received byte: call `read`; if it yields a command, look the offset up in
the register space (`firmware_version` bytes, sentinel 0xFF when out of
range) and queue the result with `reply`; the next loop iteration finds the
receive FIFO empty and breaks.  Returns the new state and the command
processed, if any. -/
def spi1_interrupt (regs : List Nat) (s : SpiPeripheral) (rx : Nat) :
    SpiPeripheral × Option Nat :=
  match SpiPeripheral.read s (some rx) with
  | (s1, some offset) => (SpiPeripheral.reply s1 (regs.getD offset 0xFF), some offset)
  | (s1, none) => (s1, none)

/-- One full-duplex bus exchange while selected: the device shifts out the
head of the transmit FIFO (if any), receives `b`, and then the interrupt
handler runs.  Returns the new state, the byte shifted out, and the command
the handler processed, if any.  Modelled from the spec: the transmit
register must be loaded one exchange ahead, so the handler's writes are only
visible from the next exchange on. -/
def spi_exchange (regs : List Nat) (s : SpiPeripheral) (b : Nat) :
    SpiPeripheral × Option Nat × Option Nat :=
  let out := s.tx_fifo.head?
  let r := spi1_interrupt regs { s with tx_fifo := s.tx_fifo.tail } b
  (r.1, out, r.2)

/-- Run a sequence of bus exchanges, collecting the bytes shifted out and the
commands processed. -/
def run_exchanges (regs : List Nat) :
    SpiPeripheral → List Nat → SpiPeripheral × List (Option Nat) × List (Option Nat)
  | s, [] => (s, [], [])
  | s, b :: bs =>
    let r := spi_exchange regs s b
    let rest := run_exchanges regs r.1 bs
    (rest.1, r.2.1 :: rest.2.1, r.2.2 :: rest.2.2)

/-- One chip-select session: the falling CS edge enables the peripheral, then
the host clocks the given bytes. -/
def spi_session (regs : List Nat) (s : SpiPeripheral) (host_bytes : List Nat) :
    SpiPeripheral × List (Option Nat) × List (Option Nat) :=
  run_exchanges regs (SpiPeripheral.enable s) host_bytes

/-- The identity string "NEO" of the claim, as register-space bytes. -/
def neo_regs : List Nat := [0x4E, 0x45, 0x4F]

/-- The peripheral state after `init`: counter zero, no reply pending,
transmit FIFO drained. -/
def spi_init : SpiPeripheral := ⟨0, none, []⟩

/-- C2 counterexample: against the register space "NEO", the session [pad,
0x00] followed by the session [pad, 0x01] shifts out only the preloaded 0xFF
filler and an undefined (never loaded) byte in each session; the replies 'N'
(0x4E) and 'E' (0x45) are never shifted out, because `read` only loads a
pending reply into the transmit FIFO when the *next* byte arrives and
`enable` discards the pending reply at the start of the next session. -/
theorem spi_register_server_counterexample :
    (spi_session neo_regs spi_init [0x55, 0x00]).2.1 = [some 0xFF, none] ∧
    (spi_session neo_regs
        (spi_session neo_regs spi_init [0x55, 0x00]).1 [0x55, 0x01]).2.1 =
      [some 0xFF, none] ∧
    some 0x4E ∉ (spi_session neo_regs spi_init [0x55, 0x00]).2.1 ++
      (spi_session neo_regs
        (spi_session neo_regs spi_init [0x55, 0x00]).1 [0x55, 0x01]).2.1 ∧
    some 0x45 ∉ (spi_session neo_regs spi_init [0x55, 0x00]).2.1 ++
      (spi_session neo_regs
        (spi_session neo_regs spi_init [0x55, 0x00]).1 [0x55, 0x01]).2.1 := by
  decide

/-- C2 as amended: the reply to the offset received as the second byte of a
session is shifted out two exchanges after the offset byte — the handler
queues it in `reply_byte` on the offset byte, loads it into the transmit FIFO
only when the third byte arrives, so it appears on the fourth exchange,
followed by the 0xFF filler on the fifth — hence against "NEO" a five-byte
session [pad, 0x00, pad, pad, pad] shifts out 'N' on its fourth exchange and
0xFF on its fifth, a following session [pad, 0x01, pad, pad, pad] likewise
shifts out 'E', and the out-of-range offset 0xFF yields the sentinel 0xFF in
the same position. -/
theorem spi_register_server_amended :
    (spi_session neo_regs spi_init [0x55, 0x00, 0x55, 0x55, 0x55]).2.1 =
      [some 0xFF, none, none, some 0x4E, some 0xFF] ∧
    (spi_session neo_regs
        (spi_session neo_regs spi_init [0x55, 0x00, 0x55, 0x55, 0x55]).1
        [0x55, 0x01, 0x55, 0x55, 0x55]).2.1 =
      [some 0xFF, none, none, some 0x45, some 0xFF] ∧
    (spi_session neo_regs spi_init [0x55, 0xFF, 0x55, 0x55, 0x55]).2.1 =
      [some 0xFF, none, none, some 0xFF, some 0xFF] := by
  decide

/-- Spec-side command pattern for claim C9: starting from counter value `c`,
a received byte is treated as a register offset exactly when the wrapping
8-bit counter reaches 2 on it. -/
def expected_cmds (c : Nat) : List Nat → List (Option Nat)
  | [] => []
  | b :: bs =>
    (if (c + 1) % 256 = 2 then some b else none) :: expected_cmds ((c + 1) % 256) bs

theorem spi_exchange_count (regs : List Nat) (s : SpiPeripheral) (b : Nat) :
    ((spi_exchange regs s b).1).count = (s.count + 1) % 256 ∧
    (spi_exchange regs s b).2.2 =
      (if (s.count + 1) % 256 = 2 then some b else none) := by
  unfold spi_exchange spi1_interrupt SpiPeripheral.read SpiPeripheral.reply
  cases hr : s.reply_byte <;> by_cases hc : (s.count + 1) % 256 = 2 <;>
    simp [hr, hc]

theorem run_exchanges_cmds (regs : List Nat) :
    ∀ (bytes : List Nat) (s : SpiPeripheral),
      (run_exchanges regs s bytes).2.2 = expected_cmds s.count bytes := by
  intro bytes
  induction bytes with
  | nil => intro s; rfl
  | cons b bs ih =>
    intro s
    have h := spi_exchange_count regs s b
    unfold run_exchanges expected_cmds
    dsimp only
    rw [h.2, ih (spi_exchange regs s b).1, h.1]

/-- C9: `enable` zeroes the byte counter, clears any pending reply and
preloads the 0xFF filler; within a session, `read` hands a received byte to
the handler as a register offset exactly when the session byte counter
reaches 2 — on the second received byte, and then again only after the
wrapping 8-bit counter comes back to 2, 256 bytes later. -/
theorem spi_read_second_byte :
    (∀ s : SpiPeripheral, SpiPeripheral.enable s = ⟨0, none, [0xFF]⟩) ∧
    (∀ (regs : List Nat) (s : SpiPeripheral) (bytes : List Nat),
      (spi_session regs s bytes).2.2 = expected_cmds 0 bytes) := by
  constructor
  · intro s; rfl
  · intro regs s bytes
    unfold spi_session
    rw [run_exchanges_cmds regs bytes (SpiPeripheral.enable s)]
    rfl

/-! ## Bounded keyboard word queue -/

/-- Modelled from the spec: the `heapless::spsc::Queue<u16, 8>` created in
`init` (pico main.rs line 161) is an external crate whose code is not under
`src/`; per the spec it is a fixed-capacity-8 FIFO whose enqueue fails on a
full queue (overwrite is never permitted) and whose dequeue of an empty
queue returns "no data".  The queue content is the list of words, oldest
first. -/
def wq_enqueue (q : List Nat) (x : Nat) : Option (List Nat) :=
  if q.length < 8 then some (q ++ [x]) else none

/-- Modelled from the spec: dequeue returns the oldest word, or `none` when
the queue is empty. -/
def wq_dequeue (q : List Nat) : Option (Nat × List Nat) :=
  match q with
  | [] => none
  | x :: xs => some (x, xs)

/-- A producer enqueue (as in `exti4_15_interrupt`, pico main.rs line 366,
which unwraps the result — a rejected enqueue is a panic) or a consumer
dequeue (as in `idle`). -/
inductive WqOp where
  | enq (x : Nat)
  | deq

/-- A run of the queue: its content, the words dequeued so far, the words
successfully enqueued so far, and whether the producer has panicked on a
rejected enqueue. -/
structure WqSys where
  queue : List Nat
  outs : List Nat
  log : List Nat
  panicked : Bool

/-- One producer/consumer step; after a producer panic nothing more runs. -/
def wq_step (s : WqSys) (op : WqOp) : WqSys :=
  if s.panicked then s
  else
    match op with
    | WqOp.enq x =>
      match wq_enqueue s.queue x with
      | some q2 => { s with queue := q2, log := s.log ++ [x] }
      | none => { s with panicked := true }
    | WqOp.deq =>
      match wq_dequeue s.queue with
      | some r => { s with queue := r.2, outs := s.outs ++ [r.1] }
      | none => s

/-- Run a sequence of queue operations from the empty queue. -/
def wq_run (ops : List WqOp) : WqSys := ops.foldl wq_step ⟨[], [], [], false⟩

theorem wq_step_fifo (s : WqSys) (op : WqOp)
    (h : s.outs ++ s.queue = s.log) :
    (wq_step s op).outs ++ (wq_step s op).queue = (wq_step s op).log := by
  unfold wq_step
  by_cases hp : s.panicked
  · simp [hp, h]
  · cases op with
    | enq x =>
      simp only [hp, if_false, Bool.false_eq_true]
      unfold wq_enqueue
      by_cases hl : s.queue.length < 8
      · simp [hl, ← h, List.append_assoc]
      · simp [hl, h]
    | deq =>
      simp only [hp, if_false, Bool.false_eq_true]
      cases hq : s.queue with
      | nil => simpa [wq_dequeue, hq] using h
      | cons y ys =>
        simp only [wq_dequeue, hq]
        rw [← h, hq]
        simp

theorem wq_run_fifo_aux :
    ∀ (ops : List WqOp) (s : WqSys),
      s.outs ++ s.queue = s.log →
      (ops.foldl wq_step s).outs ++ (ops.foldl wq_step s).queue =
        (ops.foldl wq_step s).log := by
  intro ops
  induction ops with
  | nil => intro s h; exact h
  | cons op rest ih =>
    intro s h
    exact ih (wq_step s op) (wq_step_fifo s op h)

/-- C6: the keyboard word queue preserves FIFO order — for any sequence of
enqueues and dequeues, the words dequeued so far followed by the words still
queued are exactly the successfully-enqueued words in order, so dequeue
always returns words in enqueue order; eight enqueues from empty all succeed,
while the ninth without an intervening dequeue is rejected and the producer
(which unwraps the result) panics rather than overwriting; dequeue of the
empty queue returns "no data" rather than an error. -/
theorem word_queue_fifo :
    (∀ ops : List WqOp,
      (wq_run ops).outs ++ (wq_run ops).queue = (wq_run ops).log) ∧
    (wq_run ((List.range 8).map WqOp.enq)).panicked = false ∧
    (wq_run ((List.range 8).map WqOp.enq)).queue = List.range 8 ∧
    (wq_run ((List.range 9).map WqOp.enq)).panicked = true ∧
    wq_dequeue [] = none := by
  refine ⟨?_, by decide, by decide, by decide, rfl⟩
  intro ops
  exact wq_run_fifo_aux ops ⟨[], [], [], false⟩ rfl
